import Mathlib

/-!
Shallow embedding of the Wumpus-world agent logic (`WumpusAgent` in
`wumpus.py`): the knowledge base as a finite set of tagged facts, the
percept-recording operation `tell_kb`, the one-sweep inference
`infer_safety`, and the decision function `choose_action` with its
helper `find_safe_unvisited`.  Coordinates are integers (Python ints);
the grid is the fixed 4x4 board of the source.
-/

namespace Wumpus

/-- Fact tags stored in the KB: `V` = Visited, `OK` = SafeConfirmed,
`NP` = `~P` (NoPit), `NW` = `~W` (NoWumpus), `B` = Breeze, `NB` = `~B`
(NoBreeze), `S` = Stench, `NS` = `~S` (NoStench), `G` = Glitter. -/
inductive Sym where
  | V | OK | NP | NW | B | NB | S | NS | G
deriving DecidableEq

/-- A KB entry `(Symbol, r, c)` as in `wumpus.py` line 13. -/
abbrev Fact := Sym × ℤ × ℤ

/-- Percept tokens supplied by the world simulator. -/
inductive Percept where
  | Breeze | Stench | Glitter | Bump | Scream
deriving DecidableEq

/-- The mutable fields of `WumpusAgent`. -/
structure AgentState where
  kb : Finset Fact
  agent_x : ℤ
  agent_y : ℤ
  direction : ℤ
  has_gold : Bool
  arrows : ℤ
deriving DecidableEq

/-- `WumpusAgent.reset_state` (lines 17-31): position (3,0) facing East,
no gold, one arrow, KB seeded with `V`, `OK`, `~P`, `~W` at (3,0). -/
def reset_state : AgentState :=
  { kb := {(Sym.V, 3, 0), (Sym.OK, 3, 0), (Sym.NP, 3, 0), (Sym.NW, 3, 0)}
    agent_x := 3
    agent_y := 0
    direction := 0
    has_gold := false
    arrows := 1 }

/-- `0 <= r < 4 and 0 <= c < 4`, the bounds test of lines 51 and 259. -/
def InBounds (r c : ℤ) : Prop := 0 ≤ r ∧ r < 4 ∧ 0 ≤ c ∧ c < 4

instance (r c : ℤ) : Decidable (InBounds r c) :=
  inferInstanceAs (Decidable (0 ≤ r ∧ r < 4 ∧ 0 ≤ c ∧ c < 4))

/-- `WumpusAgent.get_neighbors` (lines 46-53): candidate order East,
South, West, North, clipped to the 4x4 grid. -/
def get_neighbors (r c : ℤ) : List (ℤ × ℤ) :=
  [(r, c + 1), (r + 1, c), (r, c - 1), (r - 1, c)].filter
    (fun p => decide (InBounds p.1 p.2))

/-- `WumpusAgent.tell_kb` (lines 55-76): caches the position, marks the
cell visited, asserts the present polarity of Breeze/Stench and discards
the opposite one, and records Glitter when perceived. -/
def tell_kb (st : AgentState) (percepts : Finset Percept) (r c : ℤ) : AgentState :=
  let kb1 := insert (Sym.V, r, c) st.kb
  let kb2 :=
    if Percept.Breeze ∈ percepts then
      (insert (Sym.B, r, c) kb1).erase (Sym.NB, r, c)
    else
      (insert (Sym.NB, r, c) kb1).erase (Sym.B, r, c)
  let kb3 :=
    if Percept.Stench ∈ percepts then
      (insert (Sym.S, r, c) kb2).erase (Sym.NS, r, c)
    else
      (insert (Sym.NS, r, c) kb2).erase (Sym.S, r, c)
  let kb4 := if Percept.Glitter ∈ percepts then insert (Sym.G, r, c) kb3 else kb3
  { st with kb := kb4, agent_x := r, agent_y := c }

/-- The row-major traversal `for r in range(4): for c in range(4)` of
`infer_safety`, unrolled. -/
def cells : List (ℤ × ℤ) :=
  [(0, 0), (0, 1), (0, 2), (0, 3),
   (1, 0), (1, 1), (1, 2), (1, 3),
   (2, 0), (2, 1), (2, 2), (2, 3),
   (3, 0), (3, 1), (3, 2), (3, 3)]

/-- Facts contributed by one visited cell in the first sweep of
`infer_safety` (lines 93-104): `~B` sends `~P` to every neighbor,
`~S` sends `~W` to every neighbor. -/
def cell_new_facts (kb : Finset Fact) (p : ℤ × ℤ) : List Fact :=
  if (Sym.V, p.1, p.2) ∈ kb then
    (if (Sym.NB, p.1, p.2) ∈ kb then
      (get_neighbors p.1 p.2).map (fun q => (Sym.NP, q.1, q.2))
     else []) ++
    (if (Sym.NS, p.1, p.2) ∈ kb then
      (get_neighbors p.1 p.2).map (fun q => (Sym.NW, q.1, q.2))
     else [])
  else []

/-- The `new_facts` set accumulated by the first sweep (lines 88-104). -/
def new_safety_facts (kb : Finset Fact) : List Fact :=
  cells.flatMap (cell_new_facts kb)

/-- One iteration of Rule 3 (lines 110-113): if `~P` and `~W` both hold
at the cell, add `OK` there. -/
def ok_rule_step (kb : Finset Fact) (p : ℤ × ℤ) : Finset Fact :=
  if (Sym.NP, p.1, p.2) ∈ kb ∧ (Sym.NW, p.1, p.2) ∈ kb then
    insert (Sym.OK, p.1, p.2) kb
  else kb

/-- The KB transformation of `WumpusAgent.infer_safety` (lines 83-113):
union in the first-sweep facts, then run Rule 3 over every cell. -/
def infer_kb (kb : Finset Fact) : Finset Fact :=
  cells.foldl ok_rule_step (kb ∪ (new_safety_facts kb).toFinset)

/-- `WumpusAgent.infer_safety`: mutates only the KB. -/
def infer_safety (st : AgentState) : AgentState :=
  { st with kb := infer_kb st.kb }

/-- `WumpusAgent.find_safe_unvisited` (lines 116-147): first `OK` and
unvisited neighbor in iteration order; with gold in hand (and away from
the exit) fall back to the safe visited neighbor closest to (3,0),
first minimum winning as with Python's `min`. -/
def find_safe_unvisited (st : AgentState) : Option (ℤ × ℤ) :=
  let neighbors := get_neighbors st.agent_x st.agent_y
  match neighbors.find? (fun p =>
      decide ((Sym.OK, p.1, p.2) ∈ st.kb ∧ (Sym.V, p.1, p.2) ∉ st.kb)) with
  | some p => some p
  | none =>
    if st.has_gold = true then
      if st.agent_x = 3 ∧ st.agent_y = 0 then none
      else
        match neighbors.filter (fun p =>
            decide ((Sym.OK, p.1, p.2) ∈ st.kb ∧ (Sym.V, p.1, p.2) ∈ st.kb)) with
        | [] => none
        | p :: rest =>
          some (rest.foldl (fun best q =>
            if |q.1 - 3| + |q.2 - 0| < |best.1 - 3| + |best.2 - 0| then q
            else best) p)
    else none

/-- Actions the policy can emit. -/
inductive Action where
  | Grab | Climb | MoveForward | TurnLeft | TurnRight | Shoot
deriving DecidableEq

/-- The delta-to-heading table of `choose_action` (lines 172-176):
-1 encodes "no direct heading". -/
def target_dir (dr dc : ℤ) : ℤ :=
  if dr = -1 ∧ dc = 0 then 3
  else if dr = 1 ∧ dc = 0 then 1
  else if dr = 0 ∧ dc = 1 then 0
  else if dr = 0 ∧ dc = -1 then 2
  else -1

/-- `WumpusAgent.choose_action` (lines 149-194).  Returns the action
and the updated agent state (the only mutated field is `has_gold`,
set by the Glitter branch). -/
def choose_action (st : AgentState) (percepts : Finset Percept) : Action × AgentState :=
  if Percept.Glitter ∈ percepts then
    (Action.Grab, { st with has_gold := true })
  else if st.has_gold = true ∧ st.agent_x = 3 ∧ st.agent_y = 0 then
    (Action.Climb, st)
  else
    match find_safe_unvisited st with
    | some (tr, tc) =>
      let td := target_dir (tr - st.agent_x) (tc - st.agent_y)
      if td = -1 then (Action.TurnLeft, st)
      else
        let diff := (td - st.direction) % 4
        if diff = 0 then (Action.MoveForward, st)
        else if diff = 1 then (Action.TurnLeft, st)
        else if diff = 3 then (Action.TurnRight, st)
        else (Action.TurnLeft, st)
    | none => (Action.TurnLeft, st)

/-- Agent states reachable from `reset_state` by `tell_kb` and
`infer_safety` calls.  Positions handed to `tell_kb` are the agent's
grid position, always in bounds (out-of-bounds coordinates are a
caller precondition violation). -/
inductive Reachable : AgentState → Prop where
  | refl : Reachable reset_state
  | tell (st : AgentState) (p : Finset Percept) (r c : ℤ) :
      Reachable st → InBounds r c → Reachable (tell_kb st p r c)
  | infer (st : AgentState) : Reachable st → Reachable (infer_safety st)

/-- A state with gold already in hand at the start/exit cell (3,0),
as after a Grab decided at the start cell. -/
def gold_at_exit_state : AgentState := { reset_state with has_gold := true }

/-- Start KB extended with `V`, `OK`, `~P`, `~W` at (3,1): the one safe
neighbor of (3,0) is already visited, so no safe unvisited move exists. -/
def all_safe_visited_state : AgentState :=
  { reset_state with kb := reset_state.kb ∪
      {(Sym.V, 3, 1), (Sym.OK, 3, 1), (Sym.NP, 3, 1), (Sym.NW, 3, 1)} }

/-- Start KB extended with `OK` at (3,1): a safe unvisited neighbor due
East of the starting position. -/
def east_safe_state : AgentState :=
  { reset_state with kb := insert (Sym.OK, 3, 1) reset_state.kb }

/-! ### Membership characterizations of the KB operations -/

theorem mem_cells (a b : ℤ) : (a, b) ∈ cells ↔ InBounds a b := by
  constructor
  · intro h
    simp [cells, Prod.ext_iff] at h
    unfold InBounds
    omega
  · intro hab
    obtain ⟨h1, h2, h3, h4⟩ := hab
    interval_cases a <;> interval_cases b <;> simp [cells]

theorem mem_tell_kb (st : AgentState) (p : Finset Percept) (r c : ℤ) (x : Fact) :
    x ∈ (tell_kb st p r c).kb ↔
      ((x ∈ st.kb ∨ x = (Sym.V, r, c)
          ∨ (x = (Sym.B, r, c) ∧ Percept.Breeze ∈ p)
          ∨ (x = (Sym.NB, r, c) ∧ Percept.Breeze ∉ p)
          ∨ (x = (Sym.S, r, c) ∧ Percept.Stench ∈ p)
          ∨ (x = (Sym.NS, r, c) ∧ Percept.Stench ∉ p)
          ∨ (x = (Sym.G, r, c) ∧ Percept.Glitter ∈ p))
        ∧ ¬(x = (Sym.B, r, c) ∧ Percept.Breeze ∉ p)
        ∧ ¬(x = (Sym.NB, r, c) ∧ Percept.Breeze ∈ p)
        ∧ ¬(x = (Sym.S, r, c) ∧ Percept.Stench ∉ p)
        ∧ ¬(x = (Sym.NS, r, c) ∧ Percept.Stench ∈ p)) := by
  obtain ⟨s, a, b⟩ := x
  simp only [tell_kb]
  cases s <;> split_ifs with h1 h2 h3 <;>
    simp_all [Finset.mem_insert, Finset.mem_erase, Prod.ext_iff] <;> tauto

theorem mem_ok_rule_step (kb : Finset Fact) (p : ℤ × ℤ) (x : Fact) :
    x ∈ ok_rule_step kb p ↔
      x ∈ kb ∨ (x = (Sym.OK, p.1, p.2) ∧
        (Sym.NP, p.1, p.2) ∈ kb ∧ (Sym.NW, p.1, p.2) ∈ kb) := by
  unfold ok_rule_step
  split_ifs with h
  · simp only [Finset.mem_insert]
    tauto
  · constructor
    · tauto
    · rintro (hx | ⟨rfl, hnp, hnw⟩)
      · exact hx
      · exact absurd ⟨hnp, hnw⟩ h

theorem ok_rule_step_not_ok (kb : Finset Fact) (p : ℤ × ℤ) (s : Sym) (a b : ℤ)
    (hs : s ≠ Sym.OK) : ((s, a, b) ∈ ok_rule_step kb p ↔ (s, a, b) ∈ kb) := by
  rw [mem_ok_rule_step]
  simp [Prod.ext_iff, hs]

theorem mem_foldl_ok (ps : List (ℤ × ℤ)) (kb : Finset Fact) (x : Fact) :
    x ∈ ps.foldl ok_rule_step kb ↔
      x ∈ kb ∨ ∃ p ∈ ps, x = (Sym.OK, p.1, p.2) ∧
        (Sym.NP, p.1, p.2) ∈ kb ∧ (Sym.NW, p.1, p.2) ∈ kb := by
  induction ps generalizing kb with
  | nil => simp
  | cons p rest ih =>
    rw [List.foldl_cons, ih]
    constructor
    · rintro (hx | ⟨q, hq, rfl, hnp, hnw⟩)
      · rw [mem_ok_rule_step] at hx
        rcases hx with hx | ⟨rfl, hnp, hnw⟩
        · exact Or.inl hx
        · exact Or.inr ⟨p, List.mem_cons_self p rest, rfl, hnp, hnw⟩
      · rw [ok_rule_step_not_ok kb p Sym.NP q.1 q.2 (by simp)] at hnp
        rw [ok_rule_step_not_ok kb p Sym.NW q.1 q.2 (by simp)] at hnw
        exact Or.inr ⟨q, List.mem_cons_of_mem p hq, rfl, hnp, hnw⟩
    · rintro (hx | ⟨q, hq, rfl, hnp, hnw⟩)
      · exact Or.inl ((mem_ok_rule_step kb p _).mpr (Or.inl hx))
      · rcases List.mem_cons.mp hq with rfl | hq
        · exact Or.inl ((mem_ok_rule_step kb q _).mpr (Or.inr ⟨rfl, hnp, hnw⟩))
        · refine Or.inr ⟨q, hq, rfl, ?_, ?_⟩
          · rw [ok_rule_step_not_ok kb p Sym.NP q.1 q.2 (by simp)]
            exact hnp
          · rw [ok_rule_step_not_ok kb p Sym.NW q.1 q.2 (by simp)]
            exact hnw

theorem mem_cell_new_facts (kb : Finset Fact) (p : ℤ × ℤ) (x : Fact) :
    x ∈ cell_new_facts kb p ↔
      (Sym.V, p.1, p.2) ∈ kb ∧
        (((Sym.NB, p.1, p.2) ∈ kb ∧
            ∃ q ∈ get_neighbors p.1 p.2, x = (Sym.NP, q.1, q.2)) ∨
         ((Sym.NS, p.1, p.2) ∈ kb ∧
            ∃ q ∈ get_neighbors p.1 p.2, x = (Sym.NW, q.1, q.2))) := by
  unfold cell_new_facts
  split_ifs with hV hNB hNS <;> simp_all [List.mem_append, List.mem_map, eq_comm]

theorem mem_new_safety_facts (kb : Finset Fact) (x : Fact) :
    x ∈ new_safety_facts kb ↔ ∃ p ∈ cells, x ∈ cell_new_facts kb p := by
  simp [new_safety_facts]

theorem new_safety_facts_tag (kb : Finset Fact) (x : Fact)
    (hx : x ∈ new_safety_facts kb) : x.1 = Sym.NP ∨ x.1 = Sym.NW := by
  rw [mem_new_safety_facts] at hx
  obtain ⟨p, _, hp⟩ := hx
  rw [mem_cell_new_facts] at hp
  obtain ⟨_, ⟨_, q, _, rfl⟩ | ⟨_, q, _, rfl⟩⟩ := hp <;> simp

theorem mem_infer_kb (kb : Finset Fact) (x : Fact) :
    x ∈ infer_kb kb ↔
      (x ∈ kb ∨ x ∈ new_safety_facts kb) ∨
        ∃ p ∈ cells, x = (Sym.OK, p.1, p.2) ∧
          ((Sym.NP, p.1, p.2) ∈ kb ∨ (Sym.NP, p.1, p.2) ∈ new_safety_facts kb) ∧
          ((Sym.NW, p.1, p.2) ∈ kb ∨ (Sym.NW, p.1, p.2) ∈ new_safety_facts kb) := by
  unfold infer_kb
  rw [mem_foldl_ok]
  simp [Finset.mem_union, List.mem_toFinset]

theorem infer_kb_mono (kb : Finset Fact) (x : Fact) (hx : x ∈ kb) : x ∈ infer_kb kb := by
  rw [mem_infer_kb]
  exact Or.inl (Or.inl hx)

theorem infer_kb_other (kb : Finset Fact) (s : Sym) (a b : ℤ)
    (h1 : s ≠ Sym.OK) (h2 : s ≠ Sym.NP) (h3 : s ≠ Sym.NW) :
    ((s, a, b) ∈ infer_kb kb ↔ (s, a, b) ∈ kb) := by
  rw [mem_infer_kb]
  constructor
  · rintro ((h | h) | ⟨p, _, heq, _⟩)
    · exact h
    · rcases new_safety_facts_tag kb _ h with ht | ht <;> simp_all
    · rw [Prod.ext_iff] at heq
      exact absurd heq.1 h1
  · intro h
    exact Or.inl (Or.inl h)

theorem infer_kb_newf (kb : Finset Fact) (x : Fact) (hx : x ∈ new_safety_facts kb) :
    x ∈ infer_kb kb := by
  rw [mem_infer_kb]
  exact Or.inl (Or.inr hx)

theorem infer_safety_kb (st : AgentState) : (infer_safety st).kb = infer_kb st.kb := by
  simp only [infer_safety]

attribute [irreducible] infer_kb

theorem mem_reset_kb (s : Sym) (a b : ℤ) :
    ((s, a, b) ∈ reset_state.kb ↔
      ((s = Sym.V ∨ s = Sym.OK ∨ s = Sym.NP ∨ s = Sym.NW) ∧ a = 3 ∧ b = 0)) := by
  simp [reset_state, Prod.ext_iff]
  tauto

theorem mem_tell_kb_stable (st : AgentState) (p : Finset Percept) (r c : ℤ) (s : Sym)
    (a b : ℤ) (hs : s = Sym.OK ∨ s = Sym.NP ∨ s = Sym.NW) :
    ((s, a, b) ∈ (tell_kb st p r c).kb ↔ (s, a, b) ∈ st.kb) := by
  rcases hs with rfl | rfl | rfl <;> rw [mem_tell_kb] <;> simp [Prod.ext_iff]

theorem mem_tell_kb_V (st : AgentState) (p : Finset Percept) (r c a b : ℤ) :
    ((Sym.V, a, b) ∈ (tell_kb st p r c).kb ↔
      (Sym.V, a, b) ∈ st.kb ∨ (a = r ∧ b = c)) := by
  rw [mem_tell_kb]
  simp [Prod.ext_iff]

theorem mem_tell_kb_B (st : AgentState) (p : Finset Percept) (r c a b : ℤ) :
    ((Sym.B, a, b) ∈ (tell_kb st p r c).kb ↔
      (((Sym.B, a, b) ∈ st.kb ∨ (a = r ∧ b = c ∧ Percept.Breeze ∈ p))
        ∧ ¬(a = r ∧ b = c ∧ Percept.Breeze ∉ p))) := by
  rw [mem_tell_kb]
  simp [Prod.ext_iff]
  tauto

theorem mem_tell_kb_NB (st : AgentState) (p : Finset Percept) (r c a b : ℤ) :
    ((Sym.NB, a, b) ∈ (tell_kb st p r c).kb ↔
      (((Sym.NB, a, b) ∈ st.kb ∨ (a = r ∧ b = c ∧ Percept.Breeze ∉ p))
        ∧ ¬(a = r ∧ b = c ∧ Percept.Breeze ∈ p))) := by
  rw [mem_tell_kb]
  simp [Prod.ext_iff]
  tauto

theorem mem_tell_kb_S (st : AgentState) (p : Finset Percept) (r c a b : ℤ) :
    ((Sym.S, a, b) ∈ (tell_kb st p r c).kb ↔
      (((Sym.S, a, b) ∈ st.kb ∨ (a = r ∧ b = c ∧ Percept.Stench ∈ p))
        ∧ ¬(a = r ∧ b = c ∧ Percept.Stench ∉ p))) := by
  rw [mem_tell_kb]
  simp [Prod.ext_iff]
  tauto

theorem mem_tell_kb_NS (st : AgentState) (p : Finset Percept) (r c a b : ℤ) :
    ((Sym.NS, a, b) ∈ (tell_kb st p r c).kb ↔
      (((Sym.NS, a, b) ∈ st.kb ∨ (a = r ∧ b = c ∧ Percept.Stench ∉ p))
        ∧ ¬(a = r ∧ b = c ∧ Percept.Stench ∈ p))) := by
  rw [mem_tell_kb]
  simp [Prod.ext_iff]
  tauto

/-! ### Invariants of reachable states -/

theorem reachable_ok_np_nw (st : AgentState) (h : Reachable st) :
    ∀ a b : ℤ, (Sym.OK, a, b) ∈ st.kb →
      (Sym.NP, a, b) ∈ st.kb ∧ (Sym.NW, a, b) ∈ st.kb := by
  induction h with
  | refl =>
    intro a b hok
    rw [mem_reset_kb] at hok
    obtain ⟨-, rfl, rfl⟩ := hok
    rw [mem_reset_kb, mem_reset_kb]
    tauto
  | tell st p r c hst hb ih =>
    intro a b hok
    rw [mem_tell_kb_stable st p r c Sym.OK a b (Or.inl rfl)] at hok
    obtain ⟨hnp, hnw⟩ := ih a b hok
    rw [mem_tell_kb_stable st p r c Sym.NP a b (Or.inr (Or.inl rfl)),
      mem_tell_kb_stable st p r c Sym.NW a b (Or.inr (Or.inr rfl))]
    exact ⟨hnp, hnw⟩
  | infer st hst ih =>
    intro a b hok
    rw [infer_safety_kb, mem_infer_kb] at hok
    rw [infer_safety_kb]
    rcases hok with (hok | hnewf) | ⟨q, hq, heq, hnp1, hnw1⟩
    · obtain ⟨hnp, hnw⟩ := ih a b hok
      exact ⟨infer_kb_mono _ _ hnp, infer_kb_mono _ _ hnw⟩
    · rcases new_safety_facts_tag _ _ hnewf with ht | ht <;> simp at ht
    · rw [Prod.ext_iff] at heq
      obtain ⟨-, heq2⟩ := heq
      rw [Prod.ext_iff] at heq2
      obtain ⟨ha, hb'⟩ := heq2
      subst ha
      subst hb'
      constructor
      · rcases hnp1 with h1 | h1
        · exact infer_kb_mono _ _ h1
        · exact infer_kb_newf _ _ h1
      · rcases hnw1 with h1 | h1
        · exact infer_kb_mono _ _ h1
        · exact infer_kb_newf _ _ h1

theorem reachable_nb_visited (st : AgentState) (h : Reachable st) :
    ∀ a b : ℤ, (Sym.NB, a, b) ∈ st.kb → InBounds a b ∧ (Sym.V, a, b) ∈ st.kb := by
  induction h with
  | refl =>
    intro a b hnb
    rw [mem_reset_kb] at hnb
    obtain ⟨hs, -, -⟩ := hnb
    rcases hs with h | h | h | h <;> exact absurd h (by decide)
  | tell st p r c hst hb ih =>
    intro a b hnb
    rw [mem_tell_kb_NB] at hnb
    obtain ⟨hpos, -⟩ := hnb
    rcases hpos with hmem | ⟨rfl, rfl, -⟩
    · obtain ⟨hib, hv⟩ := ih a b hmem
      rw [mem_tell_kb_V]
      exact ⟨hib, Or.inl hv⟩
    · rw [mem_tell_kb_V]
      exact ⟨hb, Or.inr ⟨rfl, rfl⟩⟩
  | infer st hst ih =>
    intro a b hnb
    rw [infer_safety_kb, infer_kb_other st.kb Sym.NB a b (by decide) (by decide) (by decide)]
      at hnb
    obtain ⟨hib, hv⟩ := ih a b hnb
    rw [infer_safety_kb]
    exact ⟨hib, infer_kb_mono _ _ hv⟩

theorem reachable_excl (st : AgentState) (h : Reachable st) :
    ∀ a b : ℤ,
      ¬((Sym.B, a, b) ∈ st.kb ∧ (Sym.NB, a, b) ∈ st.kb) ∧
      ¬((Sym.S, a, b) ∈ st.kb ∧ (Sym.NS, a, b) ∈ st.kb) := by
  induction h with
  | refl =>
    intro a b
    constructor <;> rintro ⟨h1, h2⟩ <;> rw [mem_reset_kb] at h1 <;>
      obtain ⟨hs, -, -⟩ := h1 <;> rcases hs with h | h | h | h <;> exact absurd h (by decide)
  | tell st p r c hst hb ih =>
    intro a b
    constructor
    · rintro ⟨h1, h2⟩
      rw [mem_tell_kb_B] at h1
      rw [mem_tell_kb_NB] at h2
      obtain ⟨h1p, h1n⟩ := h1
      obtain ⟨h2p, h2n⟩ := h2
      by_cases hrc : a = r ∧ b = c
      · by_cases hbr : Percept.Breeze ∈ p
        · exact h2n ⟨hrc.1, hrc.2, hbr⟩
        · exact h1n ⟨hrc.1, hrc.2, hbr⟩
      · rcases h1p with h1m | ⟨ha, hb', -⟩
        · rcases h2p with h2m | ⟨ha, hb', -⟩
          · exact (ih a b).1 ⟨h1m, h2m⟩
          · exact hrc ⟨ha, hb'⟩
        · exact hrc ⟨ha, hb'⟩
    · rintro ⟨h1, h2⟩
      rw [mem_tell_kb_S] at h1
      rw [mem_tell_kb_NS] at h2
      obtain ⟨h1p, h1n⟩ := h1
      obtain ⟨h2p, h2n⟩ := h2
      by_cases hrc : a = r ∧ b = c
      · by_cases hbr : Percept.Stench ∈ p
        · exact h2n ⟨hrc.1, hrc.2, hbr⟩
        · exact h1n ⟨hrc.1, hrc.2, hbr⟩
      · rcases h1p with h1m | ⟨ha, hb', -⟩
        · rcases h2p with h2m | ⟨ha, hb', -⟩
          · exact (ih a b).2 ⟨h1m, h2m⟩
          · exact hrc ⟨ha, hb'⟩
        · exact hrc ⟨ha, hb'⟩
  | infer st hst ih =>
    intro a b
    constructor <;> rintro ⟨h1, h2⟩
    · rw [infer_safety_kb,
        infer_kb_other st.kb Sym.B a b (by decide) (by decide) (by decide)] at h1
      rw [infer_safety_kb,
        infer_kb_other st.kb Sym.NB a b (by decide) (by decide) (by decide)] at h2
      exact (ih a b).1 ⟨h1, h2⟩
    · rw [infer_safety_kb,
        infer_kb_other st.kb Sym.S a b (by decide) (by decide) (by decide)] at h1
      rw [infer_safety_kb,
        infer_kb_other st.kb Sym.NS a b (by decide) (by decide) (by decide)] at h2
      exact (ih a b).2 ⟨h1, h2⟩

theorem reachable_percept_visited (st : AgentState) (h : Reachable st) :
    ∀ a b : ℤ,
      ((Sym.B, a, b) ∈ st.kb ∨ (Sym.NB, a, b) ∈ st.kb ∨
       (Sym.S, a, b) ∈ st.kb ∨ (Sym.NS, a, b) ∈ st.kb) → (Sym.V, a, b) ∈ st.kb := by
  induction h with
  | refl =>
    intro a b hp
    rcases hp with h | h | h | h <;> rw [mem_reset_kb] at h <;>
      obtain ⟨hs, -, -⟩ := h <;> rcases hs with h | h | h | h <;> exact absurd h (by decide)
  | tell st p r c hst hb ih =>
    intro a b hp
    rw [mem_tell_kb_V]
    rcases hp with h | h | h | h
    · rw [mem_tell_kb_B] at h
      rcases h.1 with hm | ⟨rfl, rfl, -⟩
      · exact Or.inl (ih a b (Or.inl hm))
      · exact Or.inr ⟨rfl, rfl⟩
    · rw [mem_tell_kb_NB] at h
      rcases h.1 with hm | ⟨rfl, rfl, -⟩
      · exact Or.inl (ih a b (Or.inr (Or.inl hm)))
      · exact Or.inr ⟨rfl, rfl⟩
    · rw [mem_tell_kb_S] at h
      rcases h.1 with hm | ⟨rfl, rfl, -⟩
      · exact Or.inl (ih a b (Or.inr (Or.inr (Or.inl hm))))
      · exact Or.inr ⟨rfl, rfl⟩
    · rw [mem_tell_kb_NS] at h
      rcases h.1 with hm | ⟨rfl, rfl, -⟩
      · exact Or.inl (ih a b (Or.inr (Or.inr (Or.inr hm))))
      · exact Or.inr ⟨rfl, rfl⟩
  | infer st hst ih =>
    intro a b hp
    rw [infer_safety_kb] at hp ⊢
    rw [infer_kb_other st.kb Sym.B a b (by decide) (by decide) (by decide),
      infer_kb_other st.kb Sym.NB a b (by decide) (by decide) (by decide),
      infer_kb_other st.kb Sym.S a b (by decide) (by decide) (by decide),
      infer_kb_other st.kb Sym.NS a b (by decide) (by decide) (by decide)] at hp
    exact infer_kb_mono _ _ (ih a b hp)

/-! ### Idempotence of the inference sweep -/

theorem new_safety_facts_infer (kb : Finset Fact) (x : Fact) :
    (x ∈ new_safety_facts (infer_kb kb) ↔ x ∈ new_safety_facts kb) := by
  simp only [mem_new_safety_facts, mem_cell_new_facts]
  constructor
  · rintro ⟨p, hp, hv, hrest⟩
    rw [infer_kb_other kb Sym.V p.1 p.2 (by decide) (by decide) (by decide)] at hv
    refine ⟨p, hp, hv, ?_⟩
    rcases hrest with ⟨hnb, hex⟩ | ⟨hns, hex⟩
    · rw [infer_kb_other kb Sym.NB p.1 p.2 (by decide) (by decide) (by decide)] at hnb
      exact Or.inl ⟨hnb, hex⟩
    · rw [infer_kb_other kb Sym.NS p.1 p.2 (by decide) (by decide) (by decide)] at hns
      exact Or.inr ⟨hns, hex⟩
  · rintro ⟨p, hp, hv, hrest⟩
    refine ⟨p, hp,
      (infer_kb_other kb Sym.V p.1 p.2 (by decide) (by decide) (by decide)).mpr hv, ?_⟩
    rcases hrest with ⟨hnb, hex⟩ | ⟨hns, hex⟩
    · exact Or.inl
        ⟨(infer_kb_other kb Sym.NB p.1 p.2 (by decide) (by decide) (by decide)).mpr hnb, hex⟩
    · exact Or.inr
        ⟨(infer_kb_other kb Sym.NS p.1 p.2 (by decide) (by decide) (by decide)).mpr hns, hex⟩

theorem infer_kb_np_nw (kb : Finset Fact) (s : Sym) (a b : ℤ)
    (hs : s = Sym.NP ∨ s = Sym.NW) :
    ((s, a, b) ∈ infer_kb kb ↔ (s, a, b) ∈ kb ∨ (s, a, b) ∈ new_safety_facts kb) := by
  rw [mem_infer_kb]
  constructor
  · rintro (h | ⟨q, hq, heq, -, -⟩)
    · exact h
    · rw [Prod.ext_iff] at heq
      rcases hs with rfl | rfl <;> simp at heq
  · exact Or.inl

theorem infer_kb_idem (kb : Finset Fact) : infer_kb (infer_kb kb) = infer_kb kb := by
  ext x
  constructor
  · intro hx
    rw [mem_infer_kb] at hx
    rcases hx with (hx | hnewf) | ⟨q, hq, heq, hnp, hnw⟩
    · exact hx
    · rw [new_safety_facts_infer] at hnewf
      exact infer_kb_newf _ _ hnewf
    · have hnp2 : (Sym.NP, q.1, q.2) ∈ infer_kb kb := by
        rcases hnp with h | h
        · exact h
        · rw [new_safety_facts_infer] at h
          exact infer_kb_newf _ _ h
      have hnw2 : (Sym.NW, q.1, q.2) ∈ infer_kb kb := by
        rcases hnw with h | h
        · exact h
        · rw [new_safety_facts_infer] at h
          exact infer_kb_newf _ _ h
      rw [infer_kb_np_nw kb Sym.NP q.1 q.2 (Or.inl rfl)] at hnp2
      rw [infer_kb_np_nw kb Sym.NW q.1 q.2 (Or.inr rfl)] at hnw2
      rw [heq, mem_infer_kb]
      exact Or.inr ⟨q, hq, rfl, hnp2, hnw2⟩
  · exact infer_kb_mono _ _

/-! ### Claim theorems -/

/-- C1: in every state reachable from `reset_state` by `tell_kb` and
`infer_safety` calls, immediately after an `infer_safety` call every
in-bounds cell carries `SafeConfirmed` (`OK`) iff it carries both
`NoPit` (`~P`) and `NoWumpus` (`~W`). -/
theorem C1_safe_confirmed_iff (st : AgentState) (h : Reachable st) (a b : ℤ)
    (hab : InBounds a b) :
    ((Sym.OK, a, b) ∈ (infer_safety st).kb ↔
      (Sym.NP, a, b) ∈ (infer_safety st).kb ∧ (Sym.NW, a, b) ∈ (infer_safety st).kb) := by
  rw [infer_safety_kb]
  constructor
  · intro hok
    rw [mem_infer_kb] at hok
    rcases hok with (hok | hnewf) | ⟨q, hq, heq, hnp1, hnw1⟩
    · obtain ⟨hnp, hnw⟩ := reachable_ok_np_nw st h a b hok
      exact ⟨infer_kb_mono _ _ hnp, infer_kb_mono _ _ hnw⟩
    · rcases new_safety_facts_tag _ _ hnewf with ht | ht <;> simp at ht
    · rw [Prod.ext_iff] at heq
      obtain ⟨-, heq2⟩ := heq
      rw [Prod.ext_iff] at heq2
      obtain ⟨ha, hb2⟩ := heq2
      subst ha
      subst hb2
      constructor
      · rcases hnp1 with h1 | h1
        · exact infer_kb_mono _ _ h1
        · exact infer_kb_newf _ _ h1
      · rcases hnw1 with h1 | h1
        · exact infer_kb_mono _ _ h1
        · exact infer_kb_newf _ _ h1
  · rintro ⟨hnp, hnw⟩
    rw [infer_kb_np_nw st.kb Sym.NP a b (Or.inl rfl)] at hnp
    rw [infer_kb_np_nw st.kb Sym.NW a b (Or.inr rfl)] at hnw
    rw [mem_infer_kb]
    exact Or.inr ⟨(a, b), (mem_cells a b).mpr hab, rfl, hnp, hnw⟩

/-- Witness for C1: the start state and the start cell (3,0). -/
theorem C1_witness :
    InBounds 3 0 ∧
      ((Sym.OK, (3 : ℤ), (0 : ℤ)) ∈ (infer_safety reset_state).kb ↔
        (Sym.NP, (3 : ℤ), (0 : ℤ)) ∈ (infer_safety reset_state).kb ∧
        (Sym.NW, (3 : ℤ), (0 : ℤ)) ∈ (infer_safety reset_state).kb) :=
  ⟨by decide, C1_safe_confirmed_iff reset_state Reachable.refl 3 0 (by decide)⟩

/-- C3: in every reachable state, immediately after `infer_safety`, a cell
with `NoBreeze` (`~B`) in the KB has `NoPit` (`~P`) asserted for every
in-bounds grid-adjacent neighbor. -/
theorem C3_no_breeze_sound (st : AgentState) (h : Reachable st) (a b : ℤ)
    (hnb : (Sym.NB, a, b) ∈ (infer_safety st).kb) :
    ∀ q ∈ get_neighbors a b, (Sym.NP, q.1, q.2) ∈ (infer_safety st).kb := by
  intro q hq
  rw [infer_safety_kb] at hnb ⊢
  rw [infer_kb_other st.kb Sym.NB a b (by decide) (by decide) (by decide)] at hnb
  obtain ⟨hib, hv⟩ := reachable_nb_visited st h a b hnb
  apply infer_kb_newf
  rw [mem_new_safety_facts]
  refine ⟨(a, b), (mem_cells a b).mpr hib, ?_⟩
  rw [mem_cell_new_facts]
  exact ⟨hv, Or.inl ⟨hnb, q, hq, rfl⟩⟩

/-- Witness for C3: recording empty percepts at (3,0) and inferring gives
`~B` at (3,0), and both its neighbors get `~P`. -/
theorem C3_witness :
    (Sym.NB, (3 : ℤ), (0 : ℤ)) ∈ (infer_safety (tell_kb reset_state ∅ 3 0)).kb ∧
      ∀ q ∈ get_neighbors 3 0,
        (Sym.NP, q.1, q.2) ∈ (infer_safety (tell_kb reset_state ∅ 3 0)).kb := by
  have hnb : (Sym.NB, (3 : ℤ), (0 : ℤ)) ∈ (infer_safety (tell_kb reset_state ∅ 3 0)).kb := by
    rw [infer_safety_kb,
      infer_kb_other (tell_kb reset_state ∅ 3 0).kb Sym.NB 3 0
        (by decide) (by decide) (by decide)]
    decide
  exact ⟨hnb, C3_no_breeze_sound (tell_kb reset_state ∅ 3 0)
    (Reachable.tell reset_state ∅ 3 0 Reachable.refl (by decide)) 3 0 hnb⟩

/-- C4: each `V`, `~P`, `~W`, `OK` fact present before a `tell_kb` or
`infer_safety` call is still present after it. -/
theorem C4_monotone (st : AgentState) (s : Sym) (a b : ℤ) (p : Finset Percept) (r c : ℤ)
    (hs : s = Sym.V ∨ s = Sym.NP ∨ s = Sym.NW ∨ s = Sym.OK)
    (hmem : (s, a, b) ∈ st.kb) :
    (s, a, b) ∈ (tell_kb st p r c).kb ∧ (s, a, b) ∈ (infer_safety st).kb := by
  constructor
  · rcases hs with rfl | rfl | rfl | rfl
    · rw [mem_tell_kb_V]
      exact Or.inl hmem
    · rw [mem_tell_kb_stable st p r c Sym.NP a b (Or.inr (Or.inl rfl))]
      exact hmem
    · rw [mem_tell_kb_stable st p r c Sym.NW a b (Or.inr (Or.inr rfl))]
      exact hmem
    · rw [mem_tell_kb_stable st p r c Sym.OK a b (Or.inl rfl)]
      exact hmem
  · rw [infer_safety_kb]
    exact infer_kb_mono _ _ hmem

/-- Witness for C4: the `V` fact at (3,0) survives a `tell_kb` at (2,2)
and an `infer_safety`. -/
theorem C4_witness :
    ((Sym.V, (3 : ℤ), (0 : ℤ)) ∈ reset_state.kb) ∧
      (Sym.V, (3 : ℤ), (0 : ℤ)) ∈ (tell_kb reset_state ∅ 2 2).kb ∧
      (Sym.V, (3 : ℤ), (0 : ℤ)) ∈ (infer_safety reset_state).kb :=
  ⟨by decide, C4_monotone reset_state Sym.V 3 0 ∅ 2 2 (Or.inl rfl) (by decide)⟩

/-- C5: in every reachable state (after reset and after every `tell_kb`
or `infer_safety` call), no cell carries both `B` and `~B`, and no cell
carries both `S` and `~S`. -/
theorem C5_mutual_exclusion (st : AgentState) (h : Reachable st) (a b : ℤ) :
    ¬((Sym.B, a, b) ∈ st.kb ∧ (Sym.NB, a, b) ∈ st.kb) ∧
    ¬((Sym.S, a, b) ∈ st.kb ∧ (Sym.NS, a, b) ∈ st.kb) :=
  reachable_excl st h a b

/-- Witness for C5: the invariant instantiated at the start state and
cell (0,0). -/
theorem C5_witness :
    ¬((Sym.B, (0 : ℤ), (0 : ℤ)) ∈ reset_state.kb ∧
        (Sym.NB, (0 : ℤ), (0 : ℤ)) ∈ reset_state.kb) ∧
    ¬((Sym.S, (0 : ℤ), (0 : ℤ)) ∈ reset_state.kb ∧
        (Sym.NS, (0 : ℤ), (0 : ℤ)) ∈ reset_state.kb) :=
  C5_mutual_exclusion reset_state Reachable.refl 0 0

/-- C6: `infer_safety` is idempotent: a second call with no intervening
`tell_kb` leaves the whole agent state, in particular the KB, unchanged. -/
theorem C6_infer_idempotent (st : AgentState) :
    infer_safety (infer_safety st) = infer_safety st := by
  simp only [infer_safety]
  rw [infer_kb_idem]

/-- C10: in every reachable state, a cell carrying any breeze- or
stench-polarity fact also carries the `Visited` fact. -/
theorem C10_percept_implies_visited (st : AgentState) (h : Reachable st) (a b : ℤ)
    (hp : (Sym.B, a, b) ∈ st.kb ∨ (Sym.NB, a, b) ∈ st.kb ∨
      (Sym.S, a, b) ∈ st.kb ∨ (Sym.NS, a, b) ∈ st.kb) :
    (Sym.V, a, b) ∈ st.kb :=
  reachable_percept_visited st h a b hp

/-- Witness for C10: after recording empty percepts at (3,0), the cell
has `~B` and is `Visited`. -/
theorem C10_witness :
    ((Sym.B, (3 : ℤ), (0 : ℤ)) ∈ (tell_kb reset_state ∅ 3 0).kb ∨
      (Sym.NB, (3 : ℤ), (0 : ℤ)) ∈ (tell_kb reset_state ∅ 3 0).kb ∨
      (Sym.S, (3 : ℤ), (0 : ℤ)) ∈ (tell_kb reset_state ∅ 3 0).kb ∨
      (Sym.NS, (3 : ℤ), (0 : ℤ)) ∈ (tell_kb reset_state ∅ 3 0).kb) ∧
    (Sym.V, (3 : ℤ), (0 : ℤ)) ∈ (tell_kb reset_state ∅ 3 0).kb :=
  ⟨by decide, C10_percept_implies_visited (tell_kb reset_state ∅ 3 0)
    (Reachable.tell reset_state ∅ 3 0 Reachable.refl (by decide)) 3 0 (by decide)⟩

/-- C9: every `tell_kb` call overwrites the cached position fields
`agent_x`, `agent_y` with its `(r, c)` arguments, and leaves `direction`,
`has_gold` and `arrows` unchanged. -/
theorem C9_position_side_effect (st : AgentState) (p : Finset Percept) (r c : ℤ) :
    (tell_kb st p r c).agent_x = r ∧ (tell_kb st p r c).agent_y = c ∧
    (tell_kb st p r c).direction = st.direction ∧
    (tell_kb st p r c).has_gold = st.has_gold ∧
    (tell_kb st p r c).arrows = st.arrows :=
  ⟨rfl, rfl, rfl, rfl, rfl⟩

/-- C7 counterexample: with Glitter perceived, gold already held, and the
agent at the start/exit cell (3,0), `choose_action` returns `Grab`, not
`Climb` — the Glitter branch has no "gold not yet held" guard. -/
theorem C7_counterexample :
    Percept.Glitter ∈ ({Percept.Glitter} : Finset Percept) ∧
    gold_at_exit_state.has_gold = true ∧
    gold_at_exit_state.agent_x = 3 ∧ gold_at_exit_state.agent_y = 0 ∧
    (choose_action gold_at_exit_state {Percept.Glitter}).1 = Action.Grab ∧
    (choose_action gold_at_exit_state {Percept.Glitter}).1 ≠ Action.Climb := by
  decide

/-- C7 amended: whenever Glitter is in the percept set, `choose_action`
fires the Glitter rule regardless of whether gold is already held: it
returns `Grab` (never `Climb`) and leaves `has_gold` set. -/
theorem C7_glitter_always_grabs (st : AgentState) (percepts : Finset Percept)
    (h : Percept.Glitter ∈ percepts) :
    (choose_action st percepts).1 = Action.Grab ∧
    (choose_action st percepts).2.has_gold = true := by
  simp only [choose_action, if_pos h]
  exact ⟨trivial, trivial⟩

/-- Witness for the amended C7: the gold-holding state at (3,0). -/
theorem C7_witness :
    Percept.Glitter ∈ ({Percept.Glitter} : Finset Percept) ∧
    (choose_action gold_at_exit_state {Percept.Glitter}).1 = Action.Grab ∧
    (choose_action gold_at_exit_state {Percept.Glitter}).2.has_gold = true :=
  ⟨by decide, C7_glitter_always_grabs gold_at_exit_state {Percept.Glitter} (by decide)⟩

/-- C2 counterexample: at `all_safe_visited_state` rules 1-4 produce no
action (no Glitter, no gold, `find_safe_unvisited` is `none`); the
neighbor (3,1) is `SafeConfirmed` (risk 0) while (2,0) has no safety
facts (risk 3), and the heading toward (3,1) equals the current heading,
so the claimed risk-ranked fallback would return `MoveForward`; the code
returns `TurnLeft`. -/
theorem C2_counterexample :
    Percept.Glitter ∉ (∅ : Finset Percept) ∧
    ¬(all_safe_visited_state.has_gold = true ∧ all_safe_visited_state.agent_x = 3 ∧
        all_safe_visited_state.agent_y = 0) ∧
    find_safe_unvisited all_safe_visited_state = none ∧
    (Sym.OK, 3, 1) ∈ all_safe_visited_state.kb ∧
    (Sym.OK, 2, 0) ∉ all_safe_visited_state.kb ∧
    (Sym.NP, 2, 0) ∉ all_safe_visited_state.kb ∧
    (Sym.NW, 2, 0) ∉ all_safe_visited_state.kb ∧
    get_neighbors all_safe_visited_state.agent_x all_safe_visited_state.agent_y =
      [(3, 1), (2, 0)] ∧
    target_dir ((3 : ℤ) - all_safe_visited_state.agent_x)
        ((1 : ℤ) - all_safe_visited_state.agent_y) = all_safe_visited_state.direction ∧
    (choose_action all_safe_visited_state ∅).1 = Action.TurnLeft ∧
    (choose_action all_safe_visited_state ∅).1 ≠ Action.MoveForward := by
  decide

/-- C2 amended: whenever rules 1-4 produce no action (no Glitter, the
climb condition fails, and `find_safe_unvisited` returns nothing),
`choose_action` returns `TurnLeft` unconditionally — it performs no risk
ranking of the neighbors. -/
theorem C2_fallback_turn_left (st : AgentState) (percepts : Finset Percept)
    (h1 : Percept.Glitter ∉ percepts)
    (h2 : ¬(st.has_gold = true ∧ st.agent_x = 3 ∧ st.agent_y = 0))
    (h3 : find_safe_unvisited st = none) :
    (choose_action st percepts).1 = Action.TurnLeft ∧
    (choose_action st percepts).2 = st := by
  simp only [choose_action, if_neg h1, if_neg h2, h3]
  exact ⟨trivial, trivial⟩

/-- Witness for the amended C2: the state whose only safe neighbor is
already visited. -/
theorem C2_witness :
    Percept.Glitter ∉ (∅ : Finset Percept) ∧
    ¬(all_safe_visited_state.has_gold = true ∧ all_safe_visited_state.agent_x = 3 ∧
        all_safe_visited_state.agent_y = 0) ∧
    find_safe_unvisited all_safe_visited_state = none ∧
    ((choose_action all_safe_visited_state ∅).1 = Action.TurnLeft ∧
      (choose_action all_safe_visited_state ∅).2 = all_safe_visited_state) :=
  ⟨by decide, by decide, by decide,
    C2_fallback_turn_left all_safe_visited_state ∅ (by decide) (by decide) (by decide)⟩

/-- C8: when a target neighbor with direct heading `t` has been selected
(rules 1-2 do not fire and `find_safe_unvisited` returns it), the action
is determined by `(t - heading) % 4`: 0 gives `MoveForward`, 1 gives
`TurnLeft`, 3 gives `TurnRight`, and 2 (the 180-degree case) gives
`TurnLeft`. -/
theorem C8_heading_turn_logic (st : AgentState) (percepts : Finset Percept) (tr tc t : ℤ)
    (h1 : Percept.Glitter ∉ percepts)
    (h2 : ¬(st.has_gold = true ∧ st.agent_x = 3 ∧ st.agent_y = 0))
    (h3 : find_safe_unvisited st = some (tr, tc))
    (h4 : target_dir (tr - st.agent_x) (tc - st.agent_y) = t)
    (h5 : t ≠ -1) :
    (((t - st.direction) % 4 = 0 → (choose_action st percepts).1 = Action.MoveForward) ∧
     ((t - st.direction) % 4 = 1 → (choose_action st percepts).1 = Action.TurnLeft) ∧
     ((t - st.direction) % 4 = 3 → (choose_action st percepts).1 = Action.TurnRight) ∧
     ((t - st.direction) % 4 = 2 → (choose_action st percepts).1 = Action.TurnLeft)) := by
  simp only [choose_action, if_neg h1, if_neg h2, h3, h4, if_neg h5]
  refine ⟨fun h => ?_, fun h => ?_, fun h => ?_, fun h => ?_⟩ <;> rw [h] <;> simp

/-- Witness for C8: a safe unvisited neighbor due East while facing
East gives `MoveForward`. -/
theorem C8_witness :
    Percept.Glitter ∉ (∅ : Finset Percept) ∧
    find_safe_unvisited east_safe_state = some (3, 1) ∧
    target_dir ((3 : ℤ) - east_safe_state.agent_x) ((1 : ℤ) - east_safe_state.agent_y) = 0 ∧
    (((0 : ℤ) - east_safe_state.direction) % 4 = 0 ∧
      (choose_action east_safe_state ∅).1 = Action.MoveForward) :=
  ⟨by decide, by decide, by decide, by decide,
    (C8_heading_turn_logic east_safe_state ∅ 3 1 0 (by decide) (by decide) (by decide)
      (by decide) (by decide)).1 (by decide)⟩

end Wumpus
